import Mathlib

/-!
Verification of the ipxbox virtual IPX-over-UDP server.

The development shallowly embeds two implementations found in the repository:

* the standalone DOSBox IPX server (`src/unnamed/part_001`, package `main`):
  types `IPXAddr`, `IPXHeaderAddr`, `IPXHeader`, the codec
  (`IPXHeaderAddr.Decode`, `IPXHeader.Decode`, `IPXHeaderAddr.Encode`,
  `IPXHeader.Encode`), and the server logic (`NewAddress`, `NewClient`,
  `ForwardPacket`, `ForwardBroadcastPacket`, `ProcessPacket`,
  `CheckClientTimeouts`);
* the `server` package (`src/server/server.go`): `checkClientTimeouts`,
  `sendPing` and the timeout bookkeeping of `poll`, in namespace `ServerPkg`.

Bytes are modelled as `Nat` values below 256, byte slices as `List Nat`,
wall-clock instants and durations as `Nat` nanoseconds (Go `time.Time` /
`time.Duration`; `t.After(u)` is `t > u`, `t.Add(d)` is `t + d`).  Go maps
keyed by the UDP peer address are modelled as lists of client records looked
up with `List.find?`; the standalone server's two maps (`clients` keyed by
peer, `clientsByIPX` keyed by IPX address) always index the same set of
records whose key fields never change, so a single list carries both, with
one lookup function per key.
-/

/-- A 6-byte IPX node address (Go `type IPXAddr [6]byte`). -/
structure IPXAddr where
  b0 : Nat
  b1 : Nat
  b2 : Nat
  b3 : Nat
  b4 : Nat
  b5 : Nat
deriving DecidableEq, Repr

/-- A 4-byte IPX network number (the `network [4]byte` field). -/
structure Net4 where
  a0 : Nat
  a1 : Nat
  a2 : Nat
  a3 : Nat
deriving DecidableEq, Repr

/-- An IPX address triple: network, node address, socket
(Go `type IPXHeaderAddr struct`). -/
structure IPXHeaderAddr where
  network : Net4
  addr : IPXAddr
  socket : Nat
deriving DecidableEq, Repr

/-- The 30-byte IPX header (Go `type IPXHeader struct`). -/
structure IPXHeader where
  checksum : Nat
  length : Nat
  transControl : Nat
  packetType : Nat
  dest : IPXHeaderAddr
  src : IPXHeaderAddr
deriving DecidableEq, Repr

/-- Go `var ADDR_NULL = [6]byte{0, 0, 0, 0, 0, 0}`. -/
def ADDR_NULL : IPXAddr := ⟨0, 0, 0, 0, 0, 0⟩

/-- Go `var ADDR_BROADCAST = [6]byte{0xff, 0xff, 0xff, 0xff, 0xff, 0xff}`. -/
def ADDR_BROADCAST : IPXAddr := ⟨0xff, 0xff, 0xff, 0xff, 0xff, 0xff⟩

/-- Go `var ADDR_PINGREPLY = [6]byte{0xff, 0xff, 0xff, 0xff, 0x00, 0x00}`
(the standalone server's ping source address). -/
def ADDR_PINGREPLY : IPXAddr := ⟨0xff, 0xff, 0xff, 0xff, 0x00, 0x00⟩

/-- In Go, shifting a `byte` operand left keeps `byte` width: `b << 8`
truncates to 8 bits, hence always evaluates to 0 for byte-typed `b`.
The standalone codec's decoders apply the shift to `data[i]`, a `byte`. -/
def byteShl8 (b : Nat) : Nat := (b <<< 8) % 256

/-- Go `func (addr *IPXHeaderAddr) Decode(data []byte)` on a 12-byte slice:
network from bytes 0-3, node address from bytes 4-9, and
`socket = uint16((data[10] << 8) | data[11])` where the shift is byte-typed. -/
def IPXHeaderAddr.Decode (data : List Nat) : IPXHeaderAddr :=
  { network := ⟨data.getD 0 0, data.getD 1 0, data.getD 2 0, data.getD 3 0⟩
    addr := ⟨data.getD 4 0, data.getD 5 0, data.getD 6 0,
             data.getD 7 0, data.getD 8 0, data.getD 9 0⟩
    socket := byteShl8 (data.getD 10 0) ||| data.getD 11 0 }

/-- Go `func (header *IPXHeader) Decode(packet []byte) bool`: fails on
inputs shorter than 30 bytes, otherwise reads checksum and length as
`uint16((packet[i] << 8) | packet[i+1])` (byte-typed shift), transport
control and packet type, then the two address triples from
`packet[6:18]` and `packet[18:30]`. -/
def IPXHeader.Decode (packet : List Nat) : Option IPXHeader :=
  if packet.length < 30 then
    none
  else
    some { checksum := byteShl8 (packet.getD 0 0) ||| packet.getD 1 0
           length := byteShl8 (packet.getD 2 0) ||| packet.getD 3 0
           transControl := packet.getD 4 0
           packetType := packet.getD 5 0
           dest := IPXHeaderAddr.Decode (packet.drop 6)
           src := IPXHeaderAddr.Decode (packet.drop 18) }

/-- Go `func (addr *IPXHeaderAddr) Encode(data []byte)`: network bytes,
address bytes, then `data[10] = byte(addr.socket >> 8)` and
`data[11] = byte(addr.socket & 0xff)` (byte conversions truncate mod 256). -/
def IPXHeaderAddr.Encode (a : IPXHeaderAddr) : List Nat :=
  [a.network.a0, a.network.a1, a.network.a2, a.network.a3,
   a.addr.b0, a.addr.b1, a.addr.b2, a.addr.b3, a.addr.b4, a.addr.b5,
   (a.socket >>> 8) % 256, a.socket % 256]

/-- Go `func (header *IPXHeader) Encode() []byte`: a 30-byte buffer holding
big-endian checksum and length, transport control, packet type, destination
triple at bytes 6-17 and source triple at bytes 18-29. -/
def IPXHeader.Encode (h : IPXHeader) : List Nat :=
  [(h.checksum >>> 8) % 256, h.checksum % 256,
   (h.length >>> 8) % 256, h.length % 256,
   h.transControl, h.packetType]
  ++ h.dest.Encode ++ h.src.Encode

/-- Go `func (header IPXHeader) IsRegistrationPacket() bool`:
destination socket 2 and destination node address all-zero. -/
def IPXHeader.IsRegistrationPacket (h : IPXHeader) : Bool :=
  h.dest.socket == 2 && h.dest.addr == ADDR_NULL

/-- Go `func (header IPXHeader) IsBroadcast() bool`:
destination node address is the broadcast address. -/
def IPXHeader.IsBroadcast (h : IPXHeader) : Bool :=
  h.dest.addr == ADDR_BROADCAST

/-- One client record of the standalone server (Go `type Client struct`):
the UDP peer (abstracted to a `Nat` key standing for `addr.String()`), the
assigned IPX address, and the two liveness timestamps. -/
structure Client where
  addr : Nat
  ipxAddr : IPXAddr
  lastReceiveTime : Nat
  lastSendTime : Nat
deriving DecidableEq, Repr

/-- The mutable state of the standalone server (Go `type IPXServer struct`,
the `clients` / `clientsByIPX` maps, which always index this same record
set). -/
structure IPXServer where
  clients : List Client
deriving DecidableEq, Repr

/-- Go `const CLIENT_TIMEOUT = 10 * 60 * time.Second`, in nanoseconds. -/
def CLIENT_TIMEOUT : Nat := 10 * 60 * 1000000000

/-- Go `const CLIENT_KEEPALIVE = 5 * time.Second`, in nanoseconds. -/
def CLIENT_KEEPALIVE : Nat := 5 * 1000000000

/-- Lookup in the Go `clients` map (keyed by the peer address string). -/
def findByPeer (cs : List Client) (peer : Nat) : Option Client :=
  cs.find? (fun c => c.addr == peer)

/-- Lookup in the Go `clientsByIPX` map (keyed by the IPX address). -/
def findByIPX (cs : List Client) (a : IPXAddr) : Option Client :=
  cs.find? (fun c => c.ipxAddr == a)

/-- One draw of the random source: Go `rand.Intn(255)` yields a value in
`[0, 255)`; the stream `r` supplies the raw draws, position `k` the cursor. -/
def randByte (r : Nat → Nat) (k : Nat) : Nat := r k % 255

/-- The candidate address built by one iteration of the generation loop in
`NewAddress`: six consecutive `rand.Intn(255)` draws. -/
def genAddr (r : Nat → Nat) (k : Nat) : IPXAddr :=
  ⟨randByte r k, randByte r (k+1), randByte r (k+2),
   randByte r (k+3), randByte r (k+4), randByte r (k+5)⟩

/-- Go `func (server *IPXServer) NewAddress() IPXAddr`: repeatedly generate
six random bytes until the result collides with no existing client in
`clientsByIPX`.  The unbounded Go loop is given explicit `fuel`; `none`
means the fuel ran out before a free address appeared. -/
def NewAddress (cs : List Client) (r : Nat → Nat) (k : Nat) :
    Nat → Option IPXAddr
  | 0 => none
  | fuel + 1 =>
    let result := genAddr r k
    match findByIPX cs result with
    | some _ => NewAddress cs r (k + 6) fuel
    | none => some result

/-- The registration-ack header built in `NewClient` (Go lines assembling
`reply`): checksum `0xffff`, length 30, transport control 0, destination
network zero / the client's address / socket 2, source network
`00:00:00:01` / broadcast / socket 2; `packetType` keeps its zero value. -/
def ackHeader (a : IPXAddr) : IPXHeader :=
  { checksum := 0xffff
    length := 30
    transControl := 0
    packetType := 0
    dest := { network := ⟨0, 0, 0, 0⟩, addr := a, socket := 2 }
    src := { network := ⟨0, 0, 0, 1⟩, addr := ADDR_BROADCAST, socket := 2 } }

/-- Field update performed by `client.lastSendTime = time.Now()` on the
record keyed by `peer`. -/
def setTxByPeer (cs : List Client) (peer now : Nat) : List Client :=
  cs.map fun c => if c.addr == peer then { c with lastSendTime := now } else c

/-- Field update performed by `srcClient.lastReceiveTime = time.Now()` on
the record keyed by `peer`. -/
def setRxByPeer (cs : List Client) (peer now : Nat) : List Client :=
  cs.map fun c => if c.addr == peer then { c with lastReceiveTime := now } else c

/-- Go `func (server *IPXServer) NewClient(header *IPXHeader, addr *net.UDPAddr)`:
if the peer has no record, allocate a fresh address (`NewAddress`) and insert a
new client with `lastReceiveTime = now`; in both cases set `lastSendTime = now`
and send the registration-ack to the peer.  The result pairs the new state
with the list of `(peer, bytes)` UDP sends; `none` only when `NewAddress`
exhausts its fuel. -/
def NewClient (s : IPXServer) (peer now : Nat) (r : Nat → Nat) (k fuel : Nat) :
    Option (IPXServer × List (Nat × List Nat)) :=
  match findByPeer s.clients peer with
  | some c =>
    some (⟨setTxByPeer s.clients peer now⟩,
          [(peer, (ackHeader c.ipxAddr).Encode)])
  | none =>
    match NewAddress s.clients r k fuel with
    | none => none
    | some a =>
      some (⟨s.clients ++ [{ addr := peer, ipxAddr := a,
                             lastReceiveTime := now, lastSendTime := now }]⟩,
            [(peer, (ackHeader a).Encode)])

/-- Go `func (server *IPXServer) ForwardPacket(header *IPXHeader, packet []byte)`:
look the destination node address up in `clientsByIPX`; if present, stamp that
client's `lastSendTime` and send the raw packet to its peer; otherwise do
nothing. -/
def ForwardPacket (s : IPXServer) (header : IPXHeader) (packet : List Nat)
    (now : Nat) : IPXServer × List (Nat × List Nat) :=
  match findByIPX s.clients header.dest.addr with
  | some c =>
    (⟨s.clients.map fun d =>
        if d.ipxAddr == header.dest.addr then { d with lastSendTime := now }
        else d⟩,
     [(c.addr, packet)])
  | none => (s, [])

/-- Go `func (server *IPXServer) ForwardBroadcastPacket(...)`: send the raw
packet to every client whose IPX address differs from the header's source
address, stamping each one's `lastSendTime`. -/
def ForwardBroadcastPacket (s : IPXServer) (header : IPXHeader)
    (packet : List Nat) (now : Nat) : IPXServer × List (Nat × List Nat) :=
  (⟨s.clients.map fun c =>
      if c.ipxAddr == header.src.addr then c
      else { c with lastSendTime := now }⟩,
   (s.clients.filter fun c => !(c.ipxAddr == header.src.addr)).map
     fun c => (c.addr, packet))

/-- Go `func (server *IPXServer) ProcessPacket(packet []byte, addr *net.UDPAddr)`:
decode (drop on failure), handle registrations via `NewClient`, drop datagrams
from unknown peers or with a source node address other than the peer's
registered one, otherwise stamp `lastReceiveTime` and forward (broadcast or
unicast).  Dropping is modelled as `some (s, [])`: state unchanged, nothing
sent. -/
def ProcessPacket (s : IPXServer) (packet : List Nat) (peer now : Nat)
    (r : Nat → Nat) (k fuel : Nat) :
    Option (IPXServer × List (Nat × List Nat)) :=
  match IPXHeader.Decode packet with
  | none => some (s, [])
  | some header =>
    if header.IsRegistrationPacket then
      NewClient s peer now r k fuel
    else
      match findByPeer s.clients peer with
      | none => some (s, [])
      | some srcClient =>
        if !(header.src.addr == srcClient.ipxAddr) then
          some (s, [])
        else
          let s1 : IPXServer := ⟨setRxByPeer s.clients peer now⟩
          if header.IsBroadcast then
            some (ForwardBroadcastPacket s1 header packet now)
          else
            some (ForwardPacket s1 header packet now)

/-- The ping header assembled by the standalone `SendPing`: destination
broadcast / socket 2, source `ADDR_PINGREPLY` / socket 0, every other field
left at its zero value. -/
def pingHeaderDB : IPXHeader :=
  { checksum := 0
    length := 0
    transControl := 0
    packetType := 0
    dest := { network := ⟨0, 0, 0, 0⟩, addr := ADDR_BROADCAST, socket := 2 }
    src := { network := ⟨0, 0, 0, 0⟩, addr := ADDR_PINGREPLY, socket := 0 } }

/-- Go `func (server *IPXServer) CheckClientTimeouts()`: for each client,
send a keepalive ping (stamping `lastSendTime`) when nothing was sent for
`CLIENT_KEEPALIVE`, and drop the record from both maps when nothing was
received for `CLIENT_TIMEOUT` (both via strict `time.After`).  Returns the
remaining client list and the ping sends. -/
def CheckClientTimeouts (now : Nat) :
    List Client → List Client × List (Nat × List Nat)
  | [] => ([], [])
  | c :: rest =>
    let res := CheckClientTimeouts now rest
    let pinged := now > c.lastSendTime + CLIENT_KEEPALIVE
    let c1 := if pinged then { c with lastSendTime := now } else c
    let sends := if pinged then (c.addr, pingHeaderDB.Encode) :: res.2 else res.2
    if now > c.lastReceiveTime + CLIENT_TIMEOUT then
      (res.1, sends)
    else
      (c1 :: res.1, sends)

namespace ServerPkg

/-- Go `type Config struct` from `server.go`: the two liveness durations,
in nanoseconds. -/
structure Config where
  clientTimeout : Nat
  keepaliveTime : Nat
deriving DecidableEq, Repr

/-- Go `var DefaultConfig`: 10 minutes and 5 seconds. -/
def DefaultConfig : Config :=
  { clientTimeout := 10 * 60 * 1000000000, keepaliveTime := 5 * 1000000000 }

/-- Go `var addrPingReply = [6]byte{0x02, 0xff, 0xff, 0xff, 0x00, 0x00}`. -/
def addrPingReply : IPXAddr := ⟨0x02, 0xff, 0xff, 0xff, 0x00, 0x00⟩

/-- One client of the `server` package (Go `type client struct`): the UDP
peer key, the address of its network node (`node.Address()`), and the two
liveness timestamps. -/
structure SClient where
  addr : Nat
  nodeAddr : IPXAddr
  lastReceiveTime : Nat
  lastSendTime : Nat
deriving DecidableEq, Repr

/-- Modelled from the spec: the `ipx` package used by `server.go` is not in
the sources; its `Header.MarshalBinary` is specified as producing exactly 30
bytes with every multi-byte field big-endian, in the layout of section 3 of
the spec (checksum, length, transport control, packet type, destination
triple, source triple). -/
def MarshalBinary (h : IPXHeader) : List Nat :=
  [(h.checksum >>> 8) % 256, h.checksum % 256,
   (h.length >>> 8) % 256, h.length % 256,
   h.transControl, h.packetType,
   h.dest.network.a0, h.dest.network.a1, h.dest.network.a2, h.dest.network.a3,
   h.dest.addr.b0, h.dest.addr.b1, h.dest.addr.b2,
   h.dest.addr.b3, h.dest.addr.b4, h.dest.addr.b5,
   (h.dest.socket >>> 8) % 256, h.dest.socket % 256,
   h.src.network.a0, h.src.network.a1, h.src.network.a2, h.src.network.a3,
   h.src.addr.b0, h.src.addr.b1, h.src.addr.b2,
   h.src.addr.b3, h.src.addr.b4, h.src.addr.b5,
   (h.src.socket >>> 8) % 256, h.src.socket % 256]

/-- The header assembled by `Server.sendPing` in `server.go`: destination
broadcast / socket 2, source `addrPingReply` / socket 0; `Checksum`,
`Length`, `TransControl`, `PacketType` and both `Network` fields keep their
Go zero values. -/
def pingHeader : IPXHeader :=
  { checksum := 0
    length := 0
    transControl := 0
    packetType := 0
    dest := { network := ⟨0, 0, 0, 0⟩, addr := ADDR_BROADCAST, socket := 2 }
    src := { network := ⟨0, 0, 0, 0⟩, addr := addrPingReply, socket := 0 } }

/-- The UDP datagram a keepalive ping puts on the wire. -/
def pingBytes : List Nat := MarshalBinary pingHeader

/-- Result of one `checkClientTimeouts` sweep: the clients still in the
table, the node addresses that were `Close()`d, the ping datagrams sent
(peer, bytes), and the returned next-check time. -/
structure SweepResult where
  remaining : List SClient
  closedNodes : List IPXAddr
  pings : List (Nat × List Nat)
  nextCheckTime : Nat
deriving DecidableEq, Repr

/-- Go `func (s *Server) checkClientTimeouts() time.Time`: starting from a
next-check time of `now + 10s`, visit every client; ping it (stamping
`lastSendTime`, then recomputing its keepalive time) when nothing was sent
for `KeepaliveTime`; delete it and close its node when nothing was received
for `ClientTimeout` (both via strict `time.After`); and fold the minimum of
every visited client's keepalive and timeout times into the next-check
time. -/
def checkClientTimeouts (cfg : Config) (now : Nat) :
    List SClient → SweepResult
  | [] => { remaining := [], closedNodes := [], pings := [],
            nextCheckTime := now + 10 * 1000000000 }
  | c :: rest =>
    let res := checkClientTimeouts cfg now rest
    let pinged := now > c.lastSendTime + cfg.keepaliveTime
    let c1 := if pinged then { c with lastSendTime := now } else c
    let keepaliveTime := c1.lastSendTime + cfg.keepaliveTime
    let timeoutTime := c.lastReceiveTime + cfg.clientTimeout
    let removed := now > timeoutTime
    { remaining := if removed then res.remaining else c1 :: res.remaining
      closedNodes := if removed then c.nodeAddr :: res.closedNodes
                     else res.closedNodes
      pings := if pinged then (c.addr, pingBytes) :: res.pings else res.pings
      nextCheckTime := min keepaliveTime (min timeoutTime res.nextCheckTime) }

/-- The server state that `poll` threads between iterations: the client
table and `timeoutCheckTime`. -/
structure ServerState where
  clients : List SClient
  timeoutCheckTime : Nat
deriving DecidableEq, Repr

/-- Go `func (s *Server) poll() error`, timeout bookkeeping: set the socket
read deadline to the stored `timeoutCheckTime`, receive and process at most
one datagram (its effect on the client table is abstracted as `ingress`,
since `processPacket` never touches `timeoutCheckTime`), then, when `now`
has passed `timeoutCheckTime`, run the sweep and store its returned time.
The result pairs the read deadline that was used with the new state. -/
def poll (cfg : Config) (s : ServerState) (ingress : List SClient → List SClient)
    (now : Nat) : Nat × ServerState :=
  let deadline := s.timeoutCheckTime
  let cs := ingress s.clients
  if now > s.timeoutCheckTime then
    let res := checkClientTimeouts cfg now cs
    (deadline, { clients := res.remaining, timeoutCheckTime := res.nextCheckTime })
  else
    (deadline, { clients := cs, timeoutCheckTime := s.timeoutCheckTime })

end ServerPkg

/-- C5: the claim says the 30-byte header codec round-trips bit-exactly in
every field.  It does not: the decoders read each 16-bit field as
`(data[i] << 8) | data[i+1]` with a byte-typed left operand, which Go
truncates to 8 bits, so the high byte of checksum, length and both sockets
is lost.  At the concrete header below (checksum `0x1234`, length `0x0102`,
dest socket `0x0203`, src socket `0xbeef`), decoding its encoding returns
only the low bytes. -/
theorem C5_decode_encode_drops_high_bytes :
    IPXHeader.Decode (IPXHeader.Encode
      { checksum := 0x1234, length := 0x0102, transControl := 0, packetType := 7
        dest := { network := ⟨0,1,2,3⟩, addr := ⟨1,2,3,4,5,6⟩, socket := 0x0203 }
        src := { network := ⟨4,5,6,7⟩, addr := ⟨7,8,9,10,11,12⟩, socket := 0xbeef } }) =
    some { checksum := 0x34, length := 0x02, transControl := 0, packetType := 7
           dest := { network := ⟨0,1,2,3⟩, addr := ⟨1,2,3,4,5,6⟩, socket := 0x03 }
           src := { network := ⟨4,5,6,7⟩, addr := ⟨7,8,9,10,11,12⟩, socket := 0xef } }
    ∧ (0x34 : Nat) ≠ 0x1234 := by
  decide

/-- C10: every address returned by `NewAddress` has each of its six bytes
strictly below `0xff` (each draw is `rand.Intn(255)`), and is therefore
never the broadcast address. -/
theorem C10_newAddress_bytes_lt_255 (cs : List Client) (r : Nat → Nat)
    (k fuel : Nat) (a : IPXAddr) (h : NewAddress cs r k fuel = some a) :
    (a.b0 < 255 ∧ a.b1 < 255 ∧ a.b2 < 255 ∧
     a.b3 < 255 ∧ a.b4 < 255 ∧ a.b5 < 255) ∧ a ≠ ADDR_BROADCAST := by
  induction fuel generalizing k with
  | zero => exact absurd h (by simp [NewAddress])
  | succ n ih =>
    simp only [NewAddress] at h
    cases hf : findByIPX cs (genAddr r k) with
    | some c => rw [hf] at h; exact ih _ h
    | none =>
      rw [hf] at h
      injection h with h2
      subst h2
      have hlt : ∀ i, randByte r i < 255 := fun i => Nat.mod_lt _ (by norm_num)
      refine ⟨⟨hlt k, hlt (k+1), hlt (k+2), hlt (k+3), hlt (k+4), hlt (k+5)⟩, ?_⟩
      intro hEq
      have hb : (genAddr r k).b0 < 255 := hlt k
      rw [hEq] at hb
      exact absurd hb (by decide)

/-- Witness for C10: on the empty client table with the all-zero stream,
one unit of fuel yields the all-zero address. -/
theorem C10_newAddress_bytes_lt_255_witness :
    (((⟨0,0,0,0,0,0⟩ : IPXAddr).b0 < 255 ∧ (⟨0,0,0,0,0,0⟩ : IPXAddr).b1 < 255 ∧
      (⟨0,0,0,0,0,0⟩ : IPXAddr).b2 < 255 ∧ (⟨0,0,0,0,0,0⟩ : IPXAddr).b3 < 255 ∧
      (⟨0,0,0,0,0,0⟩ : IPXAddr).b4 < 255 ∧ (⟨0,0,0,0,0,0⟩ : IPXAddr).b5 < 255) ∧
     (⟨0,0,0,0,0,0⟩ : IPXAddr) ≠ ADDR_BROADCAST) :=
  C10_newAddress_bytes_lt_255 [] (fun _ => 0) 0 1 ⟨0,0,0,0,0,0⟩ (by decide)

/-- C6 counterexample: the claim says every keepalive ping carries checksum
`0xFFFF`, length 30 and source node `02:ff:ff:ff:00:00`, but `sendPing`
leaves checksum and length at their zero values (first four wire bytes
zero, not `ff ff 00 1e`), and the standalone server's `SendPing` emits its
pings from `ADDR_PINGREPLY = ff:ff:ff:ff:00:00`, a different source node
(wire bytes 22-27). -/
theorem C6_ping_not_as_claimed :
    (ServerPkg.pingBytes.take 4 = [0, 0, 0, 0] ∧
     ServerPkg.pingBytes.take 4 ≠ [0xff, 0xff, 0, 30])
    ∧ ((pingHeaderDB.Encode.drop 22).take 6 = [0xff, 0xff, 0xff, 0xff, 0, 0] ∧
       (pingHeaderDB.Encode.drop 22).take 6 ≠ [0x02, 0xff, 0xff, 0xff, 0, 0]) := by
  decide

/-- C6 (amended): every keepalive ping datagram either server emits is a
30-byte IPX packet with destination node `ff:ff:ff:ff:ff:ff` socket 2,
source socket 0, and checksum and length fields both 0 (their Go zero
values); the `server` package's pings carry source node `02:ff:ff:ff:00:00`
and the standalone server's carry source node `ff:ff:ff:ff:00:00`.  Every
ping datagram produced by either timeout sweep is exactly that packet. -/
theorem C6_ping_shape :
    (ServerPkg.pingBytes =
      [0x00, 0x00, 0x00, 0x00, 0x00, 0x00,
       0x00, 0x00, 0x00, 0x00, 0xff, 0xff, 0xff, 0xff, 0xff, 0xff, 0x00, 0x02,
       0x00, 0x00, 0x00, 0x00, 0x02, 0xff, 0xff, 0xff, 0x00, 0x00, 0x00, 0x00]
    ∧ ServerPkg.pingBytes.length = 30
    ∧ ∀ (cfg : ServerPkg.Config) (now : Nat) (cs : List ServerPkg.SClient),
        ((ServerPkg.checkClientTimeouts cfg now cs).pings.all
          fun p => p.2 == ServerPkg.pingBytes) = true)
    ∧ (pingHeaderDB.Encode =
      [0x00, 0x00, 0x00, 0x00, 0x00, 0x00,
       0x00, 0x00, 0x00, 0x00, 0xff, 0xff, 0xff, 0xff, 0xff, 0xff, 0x00, 0x02,
       0x00, 0x00, 0x00, 0x00, 0xff, 0xff, 0xff, 0xff, 0x00, 0x00, 0x00, 0x00]
    ∧ pingHeaderDB.Encode.length = 30
    ∧ ∀ (now : Nat) (cs : List Client),
        ((CheckClientTimeouts now cs).2.all
          fun p => p.2 == pingHeaderDB.Encode) = true) := by
  refine ⟨⟨by decide, by decide, ?_⟩, by decide, by decide, ?_⟩
  · intro cfg now cs
    induction cs with
    | nil => rfl
    | cons c rest ih =>
      simp only [ServerPkg.checkClientTimeouts]
      by_cases hp : now > c.lastSendTime + cfg.keepaliveTime
      · simp [hp, ih]
      · simp [hp, ih]
  · intro now cs
    induction cs with
    | nil => rfl
    | cons c rest ih =>
      simp only [CheckClientTimeouts]
      by_cases hp : now > c.lastSendTime + CLIENT_KEEPALIVE
      · by_cases hrem : now > c.lastReceiveTime + CLIENT_TIMEOUT
        · simp [hp, hrem, ih]
        · simp [hp, hrem, ih]
      · by_cases hrem : now > c.lastReceiveTime + CLIENT_TIMEOUT
        · simp [hp, hrem, ih]
        · simp [hp, hrem, ih]

/-- C7 counterexample: the claim removes a client whose `lastReceiveTime`
is at least `ClientTimeout` in the past, but the code uses strict
`time.After`: with `ClientTimeout = 600`, `now = 600` and `lastRx = 0`
(exactly `ClientTimeout` ago, so the claim requires eviction) the client
stays in the table and no node is closed. -/
theorem C7_boundary_client_stays :
    (ServerPkg.checkClientTimeouts ⟨600, 5⟩ 600
      [⟨1, ⟨1,2,3,4,5,6⟩, 0, 600⟩]).remaining = [⟨1, ⟨1,2,3,4,5,6⟩, 0, 600⟩]
    ∧ (ServerPkg.checkClientTimeouts ⟨600, 5⟩ 600
        [⟨1, ⟨1,2,3,4,5,6⟩, 0, 600⟩]).closedNodes = []
    ∧ 600 - 0 ≥ (600 : Nat) := by
  decide

/-- C7 (amended): during a timeout sweep, exactly the clients whose
`lastReceiveTime` is strictly more than `ClientTimeout` in the past are
removed from the table and have their node closed; every client with
`now ≤ lastReceiveTime + ClientTimeout` remains (with its `lastSendTime`
refreshed if it was sent a keepalive ping). -/
theorem C7_timeout_eviction (cfg : ServerPkg.Config) (now : Nat)
    (cs : List ServerPkg.SClient) :
    (ServerPkg.checkClientTimeouts cfg now cs).remaining =
      (cs.filter fun c => !decide (c.lastReceiveTime + cfg.clientTimeout < now)).map
        (fun c => if c.lastSendTime + cfg.keepaliveTime < now
                  then { c with lastSendTime := now } else c)
    ∧ (ServerPkg.checkClientTimeouts cfg now cs).closedNodes =
      (cs.filter fun c => decide (c.lastReceiveTime + cfg.clientTimeout < now)).map
        (fun c => c.nodeAddr) := by
  induction cs with
  | nil => exact ⟨rfl, rfl⟩
  | cons c rest ih =>
    simp only [ServerPkg.checkClientTimeouts, List.filter_cons]
    by_cases hrem : c.lastReceiveTime + cfg.clientTimeout < now
    · by_cases hping : c.lastSendTime + cfg.keepaliveTime < now
      · simp [hrem, hping, ih.1, ih.2]
      · simp [hrem, hping, ih.1, ih.2]
    · by_cases hping : c.lastSendTime + cfg.keepaliveTime < now
      · simp [hrem, hping, ih.1, ih.2]
      · simp [hrem, hping, ih.1, ih.2]

/-- C8 counterexample: the claim computes the next deadline from the
remaining clients only (capped at `now + 10s`), but the sweep also folds in
the keepalive and timeout times of clients it removes: with
`ClientTimeout = 600`, `KeepaliveTime = 5`, `now = 1000` and one client
with `lastRx = lastTx = 0`, the client is removed (no client remains, so
the claimed deadline would be the cap `now + 10s`), yet the returned
deadline is its stale timeout time 600. -/
theorem C8_deadline_counts_removed_clients :
    (ServerPkg.checkClientTimeouts ⟨600, 5⟩ 1000
      [⟨1, ⟨1,2,3,4,5,6⟩, 0, 0⟩]).remaining = []
    ∧ (ServerPkg.checkClientTimeouts ⟨600, 5⟩ 1000
        [⟨1, ⟨1,2,3,4,5,6⟩, 0, 0⟩]).nextCheckTime = 600
    ∧ (600 : Nat) ≠ 1000 + 10 * 1000000000 := by
  decide

/-- C8 (amended): the sweep returns the minimum, over every client present
at the start of the sweep (including the ones it removes), of the
post-keepalive `lastSendTime + KeepaliveTime` and `lastReceiveTime +
ClientTimeout`, seeded with (hence never later than) `now + 10` seconds;
and `poll` uses the stored check time as the socket read deadline, storing
the sweep's returned value for the next iteration once the deadline has
passed. -/
theorem C8_next_check_deadline :
    (∀ (cfg : ServerPkg.Config) (now : Nat) (cs : List ServerPkg.SClient),
      (ServerPkg.checkClientTimeouts cfg now cs).nextCheckTime =
        cs.foldr
          (fun c acc =>
            min ((if c.lastSendTime + cfg.keepaliveTime < now then now
                  else c.lastSendTime) + cfg.keepaliveTime)
              (min (c.lastReceiveTime + cfg.clientTimeout) acc))
          (now + 10 * 1000000000))
    ∧ (∀ (cfg : ServerPkg.Config) (now : Nat) (cs : List ServerPkg.SClient),
      (ServerPkg.checkClientTimeouts cfg now cs).nextCheckTime ≤
        now + 10 * 1000000000)
    ∧ (∀ (cfg : ServerPkg.Config) (s : ServerPkg.ServerState)
        (ingress : List ServerPkg.SClient → List ServerPkg.SClient) (now : Nat),
      (ServerPkg.poll cfg s ingress now).1 = s.timeoutCheckTime
      ∧ (ServerPkg.poll cfg s ingress now).2.timeoutCheckTime =
          (if s.timeoutCheckTime < now
           then (ServerPkg.checkClientTimeouts cfg now (ingress s.clients)).nextCheckTime
           else s.timeoutCheckTime)) := by
  have hfold : ∀ (cfg : ServerPkg.Config) (now : Nat) (cs : List ServerPkg.SClient),
      (ServerPkg.checkClientTimeouts cfg now cs).nextCheckTime =
        cs.foldr
          (fun c acc =>
            min ((if c.lastSendTime + cfg.keepaliveTime < now then now
                  else c.lastSendTime) + cfg.keepaliveTime)
              (min (c.lastReceiveTime + cfg.clientTimeout) acc))
          (now + 10 * 1000000000) := by
    intro cfg now cs
    induction cs with
    | nil => rfl
    | cons c rest ih =>
      simp only [ServerPkg.checkClientTimeouts, List.foldr_cons]
      by_cases hping : c.lastSendTime + cfg.keepaliveTime < now
      · simp [hping, ih]
      · simp [hping, ih]
  refine ⟨hfold, ?_, ?_⟩
  · intro cfg now cs
    induction cs with
    | nil => exact Nat.le_refl _
    | cons c rest ih =>
      calc (ServerPkg.checkClientTimeouts cfg now (c :: rest)).nextCheckTime
          ≤ (ServerPkg.checkClientTimeouts cfg now rest).nextCheckTime := by
            simp only [ServerPkg.checkClientTimeouts]
            exact le_trans (min_le_right _ _) (min_le_right _ _)
        _ ≤ now + 10 * 1000000000 := ih
  · intro cfg s ingress now
    by_cases hnow : s.timeoutCheckTime < now
    · simp [ServerPkg.poll, hnow]
    · simp [ServerPkg.poll, hnow]

/-- An address accepted by the generation loop was looked up in
`clientsByIPX` and found absent. -/
theorem NewAddress_fresh (cs : List Client) (r : Nat → Nat) (k fuel : Nat)
    (a : IPXAddr) (h : NewAddress cs r k fuel = some a) :
    findByIPX cs a = none := by
  induction fuel generalizing k with
  | zero => exact absurd h (by simp [NewAddress])
  | succ n ih =>
    simp only [NewAddress] at h
    cases hf : findByIPX cs (genAddr r k) with
    | some c => rw [hf] at h; exact ih _ h
    | none =>
      rw [hf] at h
      injection h with h2
      subst h2
      exact hf

/-- Absence from the `clientsByIPX` map is absence from the address list. -/
theorem findByIPX_none_not_mem (cs : List Client) (a : IPXAddr)
    (h : findByIPX cs a = none) : a ∉ cs.map (fun c => c.ipxAddr) := by
  intro hmem
  obtain ⟨c, hc, hca⟩ := List.mem_map.mp hmem
  have := List.find?_eq_none.mp h c hc
  simp [hca] at this

/-- Absence from the `clients` map is absence from the peer list. -/
theorem findByPeer_none_not_mem (cs : List Client) (peer : Nat)
    (h : findByPeer cs peer = none) : peer ∉ cs.map (fun c => c.addr) := by
  intro hmem
  obtain ⟨c, hc, hca⟩ := List.mem_map.mp hmem
  have := List.find?_eq_none.mp h c hc
  simp [hca] at this

/-- Stamping `lastSendTime` on one record changes no key field. -/
theorem setTxByPeer_map_keys (cs : List Client) (peer now : Nat) :
    (setTxByPeer cs peer now).map (fun c => (c.addr, c.ipxAddr)) =
      cs.map (fun c => (c.addr, c.ipxAddr)) := by
  simp only [setTxByPeer, List.map_map]
  refine List.map_congr_left fun c _ => ?_
  by_cases h : c.addr = peer <;> simp [h]

/-- Stamping `lastReceiveTime` on one record changes no key field. -/
theorem setRxByPeer_map_keys (cs : List Client) (peer now : Nat) :
    (setRxByPeer cs peer now).map (fun c => (c.addr, c.ipxAddr)) =
      cs.map (fun c => (c.addr, c.ipxAddr)) := by
  simp only [setRxByPeer, List.map_map]
  refine List.map_congr_left fun c _ => ?_
  by_cases h : c.addr = peer <;> simp [h]

/-- C4: on a registration packet, a known peer's record is reused with no
new allocation and an unknown peer gets a freshly allocated address
(recorded, with `lastReceiveTime = now`); in both cases the server replies
to the peer with the ack packet whose destination is network `00:00:00:00`,
node the client's assigned address, socket 2, whose source is network
`00:00:00:01`, node `ff:ff:ff:ff:ff:ff`, socket 2, with checksum `0xffff`,
length 30 and transport control 0. -/
theorem C4_registration_ack (s : IPXServer) (peer now : Nat) (r : Nat → Nat)
    (k fuel : Nat) :
    (∀ a, ackHeader a =
      { checksum := 0xffff, length := 30, transControl := 0, packetType := 0
        dest := { network := ⟨0, 0, 0, 0⟩, addr := a, socket := 2 }
        src := { network := ⟨0, 0, 0, 1⟩,
                 addr := ⟨0xff, 0xff, 0xff, 0xff, 0xff, 0xff⟩, socket := 2 } })
    ∧ (∀ c, findByPeer s.clients peer = some c →
        NewClient s peer now r k fuel =
          some (⟨setTxByPeer s.clients peer now⟩,
                [(peer, (ackHeader c.ipxAddr).Encode)])
        ∧ (setTxByPeer s.clients peer now).map (fun d => (d.addr, d.ipxAddr)) =
            s.clients.map (fun d => (d.addr, d.ipxAddr)))
    ∧ (findByPeer s.clients peer = none →
        ∀ a, NewAddress s.clients r k fuel = some a →
          NewClient s peer now r k fuel =
            some (⟨s.clients ++ [{ addr := peer, ipxAddr := a,
                                   lastReceiveTime := now, lastSendTime := now }]⟩,
                  [(peer, (ackHeader a).Encode)])
          ∧ a ∉ s.clients.map (fun d => d.ipxAddr)) := by
  refine ⟨fun a => rfl, ?_, ?_⟩
  · intro c hc
    refine ⟨?_, setTxByPeer_map_keys _ _ _⟩
    simp [NewClient, hc]
  · intro hnone a ha
    refine ⟨?_, findByIPX_none_not_mem _ _ (NewAddress_fresh _ _ _ _ _ ha)⟩
    simp [NewClient, hnone, ha]

/-- Witness for C4 at a one-client table: the registered peer 7 re-registers
at time 5 and is sent the ack for its existing address, with the key fields
of the table unchanged. -/
theorem C4_registration_ack_witness :
    NewClient ⟨[⟨7, ⟨1,2,3,4,5,6⟩, 0, 0⟩]⟩ 7 5 (fun _ => 0) 0 1 =
      some (⟨setTxByPeer [⟨7, ⟨1,2,3,4,5,6⟩, 0, 0⟩] 7 5⟩,
            [(7, (ackHeader (⟨1,2,3,4,5,6⟩ : IPXAddr)).Encode)])
    ∧ (setTxByPeer [⟨7, ⟨1,2,3,4,5,6⟩, 0, 0⟩] 7 5).map (fun d => (d.addr, d.ipxAddr)) =
        ([⟨7, ⟨1,2,3,4,5,6⟩, 0, 0⟩] : List Client).map (fun d => (d.addr, d.ipxAddr)) :=
  (C4_registration_ack ⟨[⟨7, ⟨1,2,3,4,5,6⟩, 0, 0⟩]⟩ 7 5 (fun _ => 0) 0 1).2.1
    ⟨7, ⟨1,2,3,4,5,6⟩, 0, 0⟩ (by decide)

/-- C1: a non-registration ingress datagram is handed to the virtual
segment's forwarding stage — with the sending client's `lastReceiveTime`
refreshed to now — exactly when it decodes, the peer has a client record,
and the header's source node equals that client's assigned address; when
any of the three conditions fails, the state is unchanged and nothing is
sent to any client. -/
theorem C1_ingress_gate (s : IPXServer) (packet : List Nat) (peer now : Nat)
    (r : Nat → Nat) (k fuel : Nat) :
    (IPXHeader.Decode packet = none →
      ProcessPacket s packet peer now r k fuel = some (s, []))
    ∧ (∀ h, IPXHeader.Decode packet = some h → h.IsRegistrationPacket = false →
        findByPeer s.clients peer = none →
        ProcessPacket s packet peer now r k fuel = some (s, []))
    ∧ (∀ h sc, IPXHeader.Decode packet = some h →
        h.IsRegistrationPacket = false →
        findByPeer s.clients peer = some sc → h.src.addr ≠ sc.ipxAddr →
        ProcessPacket s packet peer now r k fuel = some (s, []))
    ∧ (∀ h sc, IPXHeader.Decode packet = some h →
        h.IsRegistrationPacket = false →
        findByPeer s.clients peer = some sc → h.src.addr = sc.ipxAddr →
        ProcessPacket s packet peer now r k fuel =
          some (if h.IsBroadcast
                then ForwardBroadcastPacket ⟨setRxByPeer s.clients peer now⟩
                       h packet now
                else ForwardPacket ⟨setRxByPeer s.clients peer now⟩ h packet now)
        ∧ ∀ c ∈ setRxByPeer s.clients peer now,
            c.addr = peer → c.lastReceiveTime = now) := by
  refine ⟨?_, ?_, ?_, ?_⟩
  · intro hdec
    simp [ProcessPacket, hdec]
  · intro h hdec hreg hfind
    simp [ProcessPacket, hdec, hreg, hfind]
  · intro h sc hdec hreg hfind hne
    simp [ProcessPacket, hdec, hreg, hfind, hne]
  · intro h sc hdec hreg hfind heq
    constructor
    · by_cases hb : h.IsBroadcast
      · simp [ProcessPacket, hdec, hreg, hfind, heq, hb]
      · simp [ProcessPacket, hdec, hreg, hfind, heq, hb]
    · intro c hc hcp
      obtain ⟨c0, hc0, rfl⟩ := List.mem_map.mp hc
      by_cases h0 : c0.addr = peer
      · simp [h0]
      · simp [h0] at hcp

/-- Witness for C1: a concrete broadcast datagram from registered peer 1 is
accepted and handed to the broadcast forwarding stage. -/
theorem C1_ingress_gate_witness :
    ProcessPacket ⟨[⟨1, ⟨1,2,3,4,5,6⟩, 0, 0⟩, ⟨2, ⟨7,8,9,10,11,12⟩, 0, 0⟩]⟩
        [0,0, 0,30, 0,4, 0,0,0,0, 255,255,255,255,255,255, 0,5, 0,0,0,0, 1,2,3,4,5,6, 0,5] 1 99 (fun _ => 0) 0 1 =
      some (if (⟨0, 30, 0, 4, ⟨⟨0,0,0,0⟩, ⟨255,255,255,255,255,255⟩, 5⟩, ⟨⟨0,0,0,0⟩, ⟨1,2,3,4,5,6⟩, 5⟩⟩ : IPXHeader).IsBroadcast
            then ForwardBroadcastPacket
                   ⟨setRxByPeer [⟨1, ⟨1,2,3,4,5,6⟩, 0, 0⟩, ⟨2, ⟨7,8,9,10,11,12⟩, 0, 0⟩] 1 99⟩
                   (⟨0, 30, 0, 4, ⟨⟨0,0,0,0⟩, ⟨255,255,255,255,255,255⟩, 5⟩, ⟨⟨0,0,0,0⟩, ⟨1,2,3,4,5,6⟩, 5⟩⟩ : IPXHeader) [0,0, 0,30, 0,4, 0,0,0,0, 255,255,255,255,255,255, 0,5, 0,0,0,0, 1,2,3,4,5,6, 0,5] 99
            else ForwardPacket
                   ⟨setRxByPeer [⟨1, ⟨1,2,3,4,5,6⟩, 0, 0⟩, ⟨2, ⟨7,8,9,10,11,12⟩, 0, 0⟩] 1 99⟩
                   (⟨0, 30, 0, 4, ⟨⟨0,0,0,0⟩, ⟨255,255,255,255,255,255⟩, 5⟩, ⟨⟨0,0,0,0⟩, ⟨1,2,3,4,5,6⟩, 5⟩⟩ : IPXHeader) [0,0, 0,30, 0,4, 0,0,0,0, 255,255,255,255,255,255, 0,5, 0,0,0,0, 1,2,3,4,5,6, 0,5] 99) :=
  ((C1_ingress_gate ⟨[⟨1, ⟨1,2,3,4,5,6⟩, 0, 0⟩, ⟨2, ⟨7,8,9,10,11,12⟩, 0, 0⟩]⟩
      [0,0, 0,30, 0,4, 0,0,0,0, 255,255,255,255,255,255, 0,5, 0,0,0,0, 1,2,3,4,5,6, 0,5] 1 99 (fun _ => 0) 0 1).2.2.2
    (⟨0, 30, 0, 4, ⟨⟨0,0,0,0⟩, ⟨255,255,255,255,255,255⟩, 5⟩, ⟨⟨0,0,0,0⟩, ⟨1,2,3,4,5,6⟩, 5⟩⟩ : IPXHeader) ⟨1, ⟨1,2,3,4,5,6⟩, 0, 0⟩
    (by decide) (by decide) (by decide) (by decide)).1

/-- Counting sends produced by a filter-then-map fan-out: when the peer
keys are duplicate-free, a member client is sent exactly one copy when it
passes the filter and none otherwise. -/
theorem count_fanout (l : List Client) (x : List Nat) (p : Client → Bool)
    (d : Client) (hd : d ∈ l)
    (hnp : (l.map (fun c => c.addr)).Nodup) :
    ((l.filter p).map (fun c => (c.addr, x))).count (d.addr, x) =
      if p d then 1 else 0 := by
  induction l with
  | nil => cases hd
  | cons a t ih =>
    rw [List.map_cons, List.nodup_cons] at hnp
    rcases List.mem_cons.mp hd with rfl | hdt
    · have hzero : ((t.filter p).map (fun c => (c.addr, x))).count (d.addr, x) = 0 := by
        rw [List.count_eq_zero]
        intro hmem
        obtain ⟨c, hc, hcx⟩ := List.mem_map.mp hmem
        have hceq : c.addr = d.addr := congrArg Prod.fst hcx
        exact hnp.1 (hceq ▸ List.mem_map.mpr ⟨c, List.mem_of_mem_filter hc, rfl⟩)
      by_cases hp : p d
      · simp [List.filter_cons, hp, List.count_cons, hzero]
      · simp [List.filter_cons, hp, hzero]
    · have hda : d.addr ≠ a.addr := by
        intro he
        exact hnp.1 (he ▸ List.mem_map.mpr ⟨d, hdt, rfl⟩)
      by_cases hp : p a
      · simp [List.filter_cons, hp, List.count_cons, hda, ih hdt hnp.2]
      · simp [List.filter_cons, hp, ih hdt hnp.2]

/-- Stamping `lastReceiveTime` on one record preserves the peer-key list. -/
theorem setRxByPeer_map_addr (cs : List Client) (peer now : Nat) :
    (setRxByPeer cs peer now).map (fun c => c.addr) = cs.map (fun c => c.addr) := by
  simp only [setRxByPeer, List.map_map]
  refine List.map_congr_left fun c _ => ?_
  by_cases h : c.addr = peer <;> simp [h]

/-- Stamping `lastReceiveTime` on one record preserves the address list. -/
theorem setRxByPeer_map_ipx (cs : List Client) (peer now : Nat) :
    (setRxByPeer cs peer now).map (fun c => c.ipxAddr) = cs.map (fun c => c.ipxAddr) := by
  simp only [setRxByPeer, List.map_map]
  refine List.map_congr_left fun c _ => ?_
  by_cases h : c.addr = peer <;> simp [h]

/-- C2: an accepted ingress packet addressed to the broadcast node address
is sent exactly once to every registered client other than the sender, and
never to the sender, provided the table's assigned addresses and peer keys
are duplicate-free (the reachable-state invariant). -/
theorem C2_broadcast_fanout (s : IPXServer) (packet : List Nat) (peer now : Nat)
    (r : Nat → Nat) (k fuel : Nat) (h : IPXHeader) (sc : Client)
    (hnd : (s.clients.map (fun c => c.ipxAddr)).Nodup)
    (hnp : (s.clients.map (fun c => c.addr)).Nodup)
    (hdec : IPXHeader.Decode packet = some h)
    (hb : h.dest.addr = ADDR_BROADCAST)
    (hf : findByPeer s.clients peer = some sc)
    (hs : h.src.addr = sc.ipxAddr) :
    ∃ s2 sends, ProcessPacket s packet peer now r k fuel = some (s2, sends)
      ∧ ∀ d ∈ s.clients, sends.count (d.addr, packet) = if d = sc then 0 else 1 := by
  have hreg : h.IsRegistrationPacket = false := by
    simp [IPXHeader.IsRegistrationPacket, hb, ADDR_BROADCAST, ADDR_NULL]
  have hbc : h.IsBroadcast = true := by
    simp [IPXHeader.IsBroadcast, hb]
  have hpp : ProcessPacket s packet peer now r k fuel =
      some (ForwardBroadcastPacket ⟨setRxByPeer s.clients peer now⟩ h packet now) := by
    simp [ProcessPacket, hdec, hreg, hf, hs, hbc]
  refine ⟨(ForwardBroadcastPacket ⟨setRxByPeer s.clients peer now⟩ h packet now).1,
          (ForwardBroadcastPacket ⟨setRxByPeer s.clients peer now⟩ h packet now).2,
          hpp, ?_⟩
  intro d hd
  have hsc_mem : sc ∈ s.clients := List.mem_of_find?_eq_some hf
  have hd1 : (if d.addr == peer then { d with lastReceiveTime := now } else d) ∈
      setRxByPeer s.clients peer now := List.mem_map.mpr ⟨d, hd, rfl⟩
  have haddr : (if d.addr == peer then { d with lastReceiveTime := now } else d).addr
      = d.addr := by
    by_cases h0 : d.addr = peer <;> simp [h0]
  have hipx : (if d.addr == peer then { d with lastReceiveTime := now } else d).ipxAddr
      = d.ipxAddr := by
    by_cases h0 : d.addr = peer <;> simp [h0]
  have hnpl : ((setRxByPeer s.clients peer now).map (fun c => c.addr)).Nodup := by
    rw [setRxByPeer_map_addr]; exact hnp
  have hcount := count_fanout (setRxByPeer s.clients peer now) packet
    (fun c => !(c.ipxAddr == h.src.addr))
    (if d.addr == peer then { d with lastReceiveTime := now } else d) hd1 hnpl
  rw [haddr] at hcount
  have hsends : (ForwardBroadcastPacket ⟨setRxByPeer s.clients peer now⟩ h packet now).2 =
      ((setRxByPeer s.clients peer now).filter
        (fun c => !(c.ipxAddr == h.src.addr))).map (fun c => (c.addr, packet)) := rfl
  rw [hsends, hcount]
  have hcond : ((fun c : Client => !(c.ipxAddr == h.src.addr))
      (if d.addr == peer then { d with lastReceiveTime := now } else d)) =
      !(d.ipxAddr == sc.ipxAddr) := by
    simp only [hipx, hs]
  rw [hcond]
  by_cases hds : d = sc
  · subst hds; simp
  · have hne : d.ipxAddr ≠ sc.ipxAddr :=
      fun he => hds (List.inj_on_of_nodup_map hnd hd hsc_mem he)
    simp [hds, hne]

/-- Witness for C2: with two registered clients, a broadcast from peer 1 is
delivered exactly once to peer 2. -/
theorem C2_broadcast_fanout_witness :
    List.count ((2 : Nat), [0,0, 0,30, 0,4, 0,0,0,0, 255,255,255,255,255,255, 0,5, 0,0,0,0, 1,2,3,4,5,6, 0,5])
        [((2 : Nat), [0,0, 0,30, 0,4, 0,0,0,0, 255,255,255,255,255,255, 0,5, 0,0,0,0, 1,2,3,4,5,6, 0,5])]
      = if (⟨2, ⟨7,8,9,10,11,12⟩, 0, 0⟩ : Client) = ⟨1, ⟨1,2,3,4,5,6⟩, 0, 0⟩ then 0 else 1 := by
  obtain ⟨s2, sends, hpp, hcnt⟩ :=
    C2_broadcast_fanout ⟨[⟨1, ⟨1,2,3,4,5,6⟩, 0, 0⟩, ⟨2, ⟨7,8,9,10,11,12⟩, 0, 0⟩]⟩
      [0,0, 0,30, 0,4, 0,0,0,0, 255,255,255,255,255,255, 0,5, 0,0,0,0, 1,2,3,4,5,6, 0,5] 1 99 (fun _ => 0) 0 1
      (⟨0, 30, 0, 4, ⟨⟨0,0,0,0⟩, ⟨255,255,255,255,255,255⟩, 5⟩, ⟨⟨0,0,0,0⟩, ⟨1,2,3,4,5,6⟩, 5⟩⟩ : IPXHeader) ⟨1, ⟨1,2,3,4,5,6⟩, 0, 0⟩
      (by decide) (by decide) (by decide) (by decide) (by decide) (by decide)
  have h2 := hcnt ⟨2, ⟨7,8,9,10,11,12⟩, 0, 0⟩ (by decide)
  have hconc : ProcessPacket ⟨[⟨1, ⟨1,2,3,4,5,6⟩, 0, 0⟩, ⟨2, ⟨7,8,9,10,11,12⟩, 0, 0⟩]⟩
      [0,0, 0,30, 0,4, 0,0,0,0, 255,255,255,255,255,255, 0,5, 0,0,0,0, 1,2,3,4,5,6, 0,5] 1 99 (fun _ => 0) 0 1 =
      some ((⟨[⟨1, ⟨1,2,3,4,5,6⟩, 99, 0⟩, ⟨2, ⟨7,8,9,10,11,12⟩, 0, 99⟩]⟩ : IPXServer),
            [((2 : Nat), [0,0, 0,30, 0,4, 0,0,0,0, 255,255,255,255,255,255, 0,5, 0,0,0,0, 1,2,3,4,5,6, 0,5])]) := by decide
  have h3 := hpp.symm.trans hconc
  injection h3 with h4
  have h5 : sends = [((2 : Nat), [0,0, 0,30, 0,4, 0,0,0,0, 255,255,255,255,255,255, 0,5, 0,0,0,0, 1,2,3,4,5,6, 0,5])] :=
    congrArg Prod.snd h4
  rw [h5] at h2
  exact h2

/-- C3 counterexample: the claim says a unicast whose destination is the
sender's own address is dropped, but `ForwardPacket` looks the destination
up without excluding the sender: a registered client (peer 1, address
`01:02:03:04:05:06`) that sends a packet addressed to itself is sent the
packet back, so something is delivered. -/
theorem C3_self_unicast_delivered :
    ProcessPacket ⟨[⟨1, ⟨1,2,3,4,5,6⟩, 0, 0⟩]⟩
        [0,0, 0,30, 0,4, 0,0,0,0, 1,2,3,4,5,6, 0,5, 0,0,0,0, 1,2,3,4,5,6, 0,5]
        1 99 (fun _ => 0) 0 1 =
      some (⟨[⟨1, ⟨1,2,3,4,5,6⟩, 99, 99⟩]⟩,
            [(1, [0,0, 0,30, 0,4, 0,0,0,0, 1,2,3,4,5,6, 0,5,
                  0,0,0,0, 1,2,3,4,5,6, 0,5])])
    ∧ ([(1, [0,0, 0,30, 0,4, 0,0,0,0, 1,2,3,4,5,6, 0,5,
             0,0,0,0, 1,2,3,4,5,6, 0,5])] : List (Nat × List Nat)) ≠ [] := by
  decide

/-- Looking up an address after stamping `lastReceiveTime` finds the
stamped version of whatever the original lookup finds. -/
theorem findByIPX_setRxByPeer (cs : List Client) (a : IPXAddr) (peer now : Nat) :
    findByIPX (setRxByPeer cs peer now) a =
      (findByIPX cs a).map
        (fun c => if c.addr == peer then { c with lastReceiveTime := now } else c) := by
  induction cs with
  | nil => rfl
  | cons c t ih =>
    have hkey : (if c.addr == peer then { c with lastReceiveTime := now } else c).ipxAddr
        = c.ipxAddr := by
      by_cases h0 : c.addr = peer <;> simp [h0]
    show List.find? _
        ((if c.addr == peer then { c with lastReceiveTime := now } else c)
          :: setRxByPeer t peer now) = _
    by_cases hip : c.ipxAddr = a
    · rw [List.find?_cons_of_pos _
            (by by_cases h0 : c.addr = peer <;> simp [h0, hip]),
          show findByIPX (c :: t) a = some c from
            List.find?_cons_of_pos _ (by simp [hip])]
      rfl
    · rw [List.find?_cons_of_neg _
            (by by_cases h0 : c.addr = peer <;> simp [h0, hip]),
          show findByIPX (c :: t) a = List.find? (fun x => x.ipxAddr == a) t from
            List.find?_cons_of_neg _ (by simp [hip])]
      exact ih

/-- C3 (amended): for an accepted ingress unicast, if some registered
client holds the destination address — including the sender itself — then
exactly that one client is sent one copy; if no client holds the address
the packet is dropped with nothing delivered (only the sender's
`lastReceiveTime` stamp changes). -/
theorem C3_unicast_delivery (s : IPXServer) (packet : List Nat) (peer now : Nat)
    (r : Nat → Nat) (k fuel : Nat) (h : IPXHeader) (sc : Client)
    (hdec : IPXHeader.Decode packet = some h)
    (hreg : h.IsRegistrationPacket = false)
    (hbc : h.IsBroadcast = false)
    (hf : findByPeer s.clients peer = some sc)
    (hs : h.src.addr = sc.ipxAddr) :
    (∀ d, findByIPX s.clients h.dest.addr = some d →
      ProcessPacket s packet peer now r k fuel =
        some (⟨(setRxByPeer s.clients peer now).map
                 (fun c => if c.ipxAddr == h.dest.addr
                           then { c with lastSendTime := now } else c)⟩,
              [(d.addr, packet)]))
    ∧ (findByIPX s.clients h.dest.addr = none →
      ProcessPacket s packet peer now r k fuel =
        some (⟨setRxByPeer s.clients peer now⟩, [])) := by
  have hpp : ProcessPacket s packet peer now r k fuel =
      some (ForwardPacket ⟨setRxByPeer s.clients peer now⟩ h packet now) := by
    simp [ProcessPacket, hdec, hreg, hf, hs, hbc]
  constructor
  · intro d hfind
    rw [hpp]
    have hfind1 : findByIPX (setRxByPeer s.clients peer now) h.dest.addr =
        some (if d.addr == peer then { d with lastReceiveTime := now } else d) := by
      rw [findByIPX_setRxByPeer, hfind]
      rfl
    simp only [ForwardPacket, hfind1]
    by_cases h0 : d.addr = peer <;> simp [h0]
  · intro hnone
    rw [hpp]
    have hfind1 : findByIPX (setRxByPeer s.clients peer now) h.dest.addr = none := by
      rw [findByIPX_setRxByPeer, hnone]
      rfl
    simp [ForwardPacket, hfind1]

/-- Witness for C3 (amended): a unicast from peer 1 to the address held by
peer 2 is delivered to peer 2 alone. -/
theorem C3_unicast_delivery_witness :
    ProcessPacket ⟨[⟨1, ⟨1,2,3,4,5,6⟩, 0, 0⟩, ⟨2, ⟨7,8,9,10,11,12⟩, 0, 0⟩]⟩
        [0,0, 0,30, 0,4, 0,0,0,0, 7,8,9,10,11,12, 0,5, 0,0,0,0, 1,2,3,4,5,6, 0,5] 1 99 (fun _ => 0) 0 1 =
      some (⟨(setRxByPeer [⟨1, ⟨1,2,3,4,5,6⟩, 0, 0⟩, ⟨2, ⟨7,8,9,10,11,12⟩, 0, 0⟩] 1 99).map
               (fun c => if c.ipxAddr == (⟨0, 30, 0, 4, ⟨⟨0,0,0,0⟩, ⟨7,8,9,10,11,12⟩, 5⟩, ⟨⟨0,0,0,0⟩, ⟨1,2,3,4,5,6⟩, 5⟩⟩ : IPXHeader).dest.addr
                         then { c with lastSendTime := 99 } else c)⟩,
            [(2, [0,0, 0,30, 0,4, 0,0,0,0, 7,8,9,10,11,12, 0,5, 0,0,0,0, 1,2,3,4,5,6, 0,5])]) :=
  (C3_unicast_delivery ⟨[⟨1, ⟨1,2,3,4,5,6⟩, 0, 0⟩, ⟨2, ⟨7,8,9,10,11,12⟩, 0, 0⟩]⟩
      [0,0, 0,30, 0,4, 0,0,0,0, 7,8,9,10,11,12, 0,5, 0,0,0,0, 1,2,3,4,5,6, 0,5] 1 99 (fun _ => 0) 0 1
      (⟨0, 30, 0, 4, ⟨⟨0,0,0,0⟩, ⟨7,8,9,10,11,12⟩, 5⟩, ⟨⟨0,0,0,0⟩, ⟨1,2,3,4,5,6⟩, 5⟩⟩ : IPXHeader) ⟨1, ⟨1,2,3,4,5,6⟩, 0, 0⟩
      (by decide) (by decide) (by decide) (by decide) (by decide)).1
    ⟨2, ⟨7,8,9,10,11,12⟩, 0, 0⟩ (by decide)

/-- Mapping a per-record update that changes no key leaves a key list
unchanged. -/
theorem map_key_stamp {β : Type} (key : Client → β) (upd : Client → Client)
    (hupd : ∀ c, key (upd c) = key c) (cs : List Client) :
    (cs.map upd).map key = cs.map key := by
  rw [List.map_map]
  exact List.map_congr_left fun c _ => hupd c

/-- The two-map invariant of the standalone server: assigned IPX addresses
and peer keys are each duplicate-free. -/
def GoodState (s : IPXServer) : Prop :=
  (s.clients.map (fun c => c.ipxAddr)).Nodup ∧
  (s.clients.map (fun c => c.addr)).Nodup

/-- A stamped client table satisfies the invariant when the original
does. -/
theorem GoodState_map (cs : List Client) (upd : Client → Client)
    (haddr : ∀ c, (upd c).addr = c.addr) (hipx : ∀ c, (upd c).ipxAddr = c.ipxAddr)
    (hg : GoodState ⟨cs⟩) : GoodState ⟨cs.map upd⟩ := by
  constructor
  · show ((cs.map upd).map (fun c => c.ipxAddr)).Nodup
    rw [map_key_stamp _ upd hipx]
    exact hg.1
  · show ((cs.map upd).map (fun c => c.addr)).Nodup
    rw [map_key_stamp _ upd haddr]
    exact hg.2

/-- Registration preserves the invariant: a reused record changes no key,
and a fresh record gets an unused address and an unknown peer key. -/
theorem GoodState_newClient (s : IPXServer) (peer now : Nat) (r : Nat → Nat)
    (k fuel : Nat) (res : IPXServer × List (Nat × List Nat))
    (hg : GoodState s) (h : NewClient s peer now r k fuel = some res) :
    GoodState res.1 := by
  unfold NewClient at h
  cases hf : findByPeer s.clients peer with
  | some c =>
    rw [hf] at h
    injection h with h1
    rw [← h1]
    exact GoodState_map s.clients _
      (fun c => by by_cases h0 : c.addr = peer <;> simp [h0])
      (fun c => by by_cases h0 : c.addr = peer <;> simp [h0]) hg
  | none =>
    rw [hf] at h
    cases ha : NewAddress s.clients r k fuel with
    | none => rw [ha] at h; exact absurd h (by simp)
    | some a =>
      rw [ha] at h
      injection h with h1
      rw [← h1]
      have hfresh : a ∉ s.clients.map (fun c => c.ipxAddr) :=
        findByIPX_none_not_mem _ _ (NewAddress_fresh _ _ _ _ _ ha)
      have hpeer : peer ∉ s.clients.map (fun c => c.addr) :=
        findByPeer_none_not_mem _ _ hf
      constructor
      · show ((s.clients ++ [(⟨peer, a, now, now⟩ : Client)]).map
              (fun c => c.ipxAddr)).Nodup
        rw [List.map_append, List.nodup_append]
        refine ⟨hg.1, List.nodup_singleton _, ?_⟩
        intro x hx hx1
        simp at hx1
        subst hx1
        exact hfresh hx
      · show ((s.clients ++ [(⟨peer, a, now, now⟩ : Client)]).map
              (fun c => c.addr)).Nodup
        rw [List.map_append, List.nodup_append]
        refine ⟨hg.2, List.nodup_singleton _, ?_⟩
        intro x hx hx1
        simp at hx1
        subst hx1
        exact hpeer hx

/-- Processing any UDP datagram preserves the invariant. -/
theorem GoodState_processPacket (s : IPXServer) (pkt : List Nat)
    (peer now : Nat) (r : Nat → Nat) (k fuel : Nat)
    (res : IPXServer × List (Nat × List Nat))
    (hg : GoodState s) (h : ProcessPacket s pkt peer now r k fuel = some res) :
    GoodState res.1 := by
  cases hdec : IPXHeader.Decode pkt with
  | none =>
    rw [show ProcessPacket s pkt peer now r k fuel = some (s, []) from by
      simp [ProcessPacket, hdec]] at h
    injection h with h1
    rw [← h1]
    exact hg
  | some hd =>
    by_cases hreg : hd.IsRegistrationPacket
    · rw [show ProcessPacket s pkt peer now r k fuel =
          NewClient s peer now r k fuel from by
        simp [ProcessPacket, hdec, hreg]] at h
      exact GoodState_newClient s peer now r k fuel res hg h
    · cases hf : findByPeer s.clients peer with
      | none =>
        rw [show ProcessPacket s pkt peer now r k fuel = some (s, []) from by
          simp [ProcessPacket, hdec, hreg, hf]] at h
        injection h with h1
        rw [← h1]
        exact hg
      | some sc =>
        by_cases hsrc : hd.src.addr = sc.ipxAddr
        · have hgrx : GoodState ⟨setRxByPeer s.clients peer now⟩ :=
            GoodState_map s.clients _
              (fun c => by by_cases h0 : c.addr = peer <;> simp [h0])
              (fun c => by by_cases h0 : c.addr = peer <;> simp [h0]) hg
          rw [show ProcessPacket s pkt peer now r k fuel =
              (if hd.IsBroadcast
               then some (ForwardBroadcastPacket
                            ⟨setRxByPeer s.clients peer now⟩ hd pkt now)
               else some (ForwardPacket
                            ⟨setRxByPeer s.clients peer now⟩ hd pkt now)) from by
            simp [ProcessPacket, hdec, hreg, hf, hsrc]] at h
          by_cases hb : hd.IsBroadcast
          · rw [if_pos hb] at h
            injection h with h1
            rw [← h1]
            exact GoodState_map _ _
              (fun c => by by_cases h0 : c.ipxAddr = hd.src.addr <;> simp [h0])
              (fun c => by by_cases h0 : c.ipxAddr = hd.src.addr <;> simp [h0]) hgrx
          · rw [if_neg hb] at h
            cases hdest : findByIPX (setRxByPeer s.clients peer now) hd.dest.addr with
            | some d =>
              rw [show ForwardPacket ⟨setRxByPeer s.clients peer now⟩ hd pkt now =
                    (⟨(setRxByPeer s.clients peer now).map fun e =>
                        if e.ipxAddr == hd.dest.addr
                        then { e with lastSendTime := now } else e⟩,
                     [(d.addr, pkt)]) from by
                  simp [ForwardPacket, hdest]] at h
              injection h with h1
              rw [← h1]
              exact GoodState_map _ _
                (fun c => by by_cases h0 : c.ipxAddr = hd.dest.addr <;> simp [h0])
                (fun c => by by_cases h0 : c.ipxAddr = hd.dest.addr <;> simp [h0]) hgrx
            | none =>
              rw [show ForwardPacket ⟨setRxByPeer s.clients peer now⟩ hd pkt now =
                    (⟨setRxByPeer s.clients peer now⟩, []) from by
                  simp [ForwardPacket, hdest]] at h
              injection h with h1
              rw [← h1]
              exact hgrx
        · rw [show ProcessPacket s pkt peer now r k fuel = some (s, []) from by
            simp [ProcessPacket, hdec, hreg, hf, hsrc]] at h
          injection h with h1
          rw [← h1]
          exact hg

/-- A sweep's surviving key list is a sublist of the original key list. -/
theorem sweep_map_sublist {β : Type} (now : Nat) (cs : List Client)
    (key : Client → β)
    (hkey : ∀ c n, key { c with lastSendTime := n } = key c) :
    ((CheckClientTimeouts now cs).1.map key).Sublist (cs.map key) := by
  induction cs with
  | nil => simp [CheckClientTimeouts]
  | cons c t ih =>
    simp only [CheckClientTimeouts, List.map_cons]
    by_cases hrem : now > c.lastReceiveTime + CLIENT_TIMEOUT
    · by_cases hping : now > c.lastSendTime + CLIENT_KEEPALIVE
      · simp only [hrem, hping, if_true]
        exact ih.cons _
      · simp only [hrem, hping, if_true, if_false]
        exact ih.cons _
    · by_cases hping : now > c.lastSendTime + CLIENT_KEEPALIVE
      · simp only [hrem, hping, if_true, if_false, List.map_cons, hkey]
        exact ih.cons₂ _
      · simp only [hrem, hping, if_false, List.map_cons]
        exact ih.cons₂ _

/-- A timeout sweep preserves the invariant. -/
theorem GoodState_sweep (s : IPXServer) (now : Nat) (hg : GoodState s) :
    GoodState ⟨(CheckClientTimeouts now s.clients).1⟩ := by
  constructor
  · exact (sweep_map_sublist now s.clients (fun c => c.ipxAddr)
      (fun c n => rfl)).nodup hg.1
  · exact (sweep_map_sublist now s.clients (fun c => c.addr)
      (fun c n => rfl)).nodup hg.2

/-- States of the standalone server reachable from the empty table through
packet processing and timeout sweeps. -/
inductive Reachable : IPXServer → Prop where
  | init : Reachable ⟨[]⟩
  | packet {s s2 : IPXServer} {pkt : List Nat} {peer now : Nat} {r : Nat → Nat}
      {k fuel : Nat} {sends : List (Nat × List Nat)} :
      Reachable s → ProcessPacket s pkt peer now r k fuel = some (s2, sends) →
      Reachable s2
  | sweep {s : IPXServer} (now : Nat) :
      Reachable s → Reachable ⟨(CheckClientTimeouts now s.clients).1⟩

/-- C9: `NewAddress` never returns an address already held by a registered
client, and consequently in every reachable server state the assigned
addresses of the registered clients are pairwise distinct. -/
theorem C9_address_uniqueness :
    (∀ (cs : List Client) (r : Nat → Nat) (k fuel : Nat) (a : IPXAddr),
      NewAddress cs r k fuel = some a → a ∉ cs.map (fun c => c.ipxAddr))
    ∧ ∀ s, Reachable s → (s.clients.map (fun c => c.ipxAddr)).Nodup := by
  have hinv : ∀ s, Reachable s → GoodState s := by
    intro s hs
    induction hs with
    | init => exact ⟨List.nodup_nil, List.nodup_nil⟩
    | packet hr hp ih =>
      exact GoodState_processPacket _ _ _ _ _ _ _ _ ih hp
    | sweep now hr ih => exact GoodState_sweep _ now ih
  constructor
  · intro cs r k fuel a ha
    exact findByIPX_none_not_mem _ _ (NewAddress_fresh _ _ _ _ _ ha)
  · intro s hs
    exact (hinv s hs).1

/-- Witness for C9: the fresh-address fact at a concrete empty table, and
the invariant at the initial reachable state. -/
theorem C9_address_uniqueness_witness :
    ((⟨0,0,0,0,0,0⟩ : IPXAddr) ∉ ([] : List Client).map (fun c => c.ipxAddr))
    ∧ (((⟨[]⟩ : IPXServer).clients.map (fun c => c.ipxAddr)).Nodup) :=
  ⟨C9_address_uniqueness.1 [] (fun _ => 0) 0 1 ⟨0,0,0,0,0,0⟩ (by decide),
   C9_address_uniqueness.2 ⟨[]⟩ Reachable.init⟩
